import Mathlib

/-
Verification development for the `multi-agent-book-generator` part of the
ai-author repository.  The Python modules under
`src/multi-agent-book-generator` are shallowly embedded below:

* `core/llm_provider.py`  — `LLMProvider.generate_text` (failover / retry loop),
* `agents/writer.py`      — `WriterAgent.write_chapter` / `_write_long_chapter`,
* `utils/text_processing.py` — `chunk_text`, `calculate_reading_statistics`,
  `find_repeated_phrases`,
* `utils/parsing.py`      — `parse_outline` and `_lenient_parse_outline`.

Python strings are modelled as `List Char` (one entry per code point, matching
Python's indexing and slicing); machine-independent Python integers are `Nat`
or `Int` as appropriate; a function that can raise is modelled with `Except`;
the LLM backends are abstracted as oracles passed in as function arguments.
`while` loops are modelled with an explicit fuel parameter when the Python
loop's termination is itself in question, and with structural recursion
otherwise.
-/

namespace AiAuthor

/-! ## Shared Python string primitives -/

/-- Python `\s` / `str.strip()` whitespace on ASCII text:
space, tab, newline, carriage return, vertical tab, form feed. -/
def pyIsSpace (c : Char) : Bool :=
  c = ' ' || c = '\t' || c = '\n' || c = '\r' || c = '\x0b' || c = '\x0c'

/-- Python `str.strip()`: remove leading and trailing whitespace. -/
def pyStrip (cs : List Char) : List Char :=
  ((cs.dropWhile pyIsSpace).reverse.dropWhile pyIsSpace).reverse

/-- Literal match: `lit` is an initial segment of `cs`. -/
def litAt : List Char → List Char → Bool
  | [], _ => true
  | _ :: _, [] => false
  | a :: as, b :: bs => a = b && litAt as bs

/-- Python slice `text[a:b]` (for `0 ≤ a`, `0 ≤ b`). -/
def pySlice (cs : List Char) (a b : Nat) : List Char :=
  (cs.drop a).take (b - a)

/-! ## Provider gateway: `core/llm_provider.py`, `LLMProvider.generate_text` -/

/-- Provider registry entry: one entry of the `self.providers` dict built by
`_setup_providers` (keys in registration order, each mapping to a dict whose
`"initialized"` field we keep).  In the concrete class the registry is always
`[openai, gemini]`; the failover loop itself is generic in the registry, and so
is this model. -/
structure ProviderEntry where
  name : String
  initialized : Bool
deriving DecidableEq

/-- Python `self.providers.get(name, {}).get("initialized", False)`
(llm_provider.py line 116 and line 104). -/
def lookupInitialized (providers : List ProviderEntry) (name : String) : Bool :=
  match providers.find? (fun e => e.name == name) with
  | some e => e.initialized
  | none => false

/-- Default-provider resolution (llm_provider.py lines 98-99):
`if provider is None or provider == "default": provider = config.get("llm_settings", {}).get("default_provider", "openai")`. -/
def resolveProvider (providerArg : Option String) (configDefault : Option String) : String :=
  match providerArg with
  | none => configDefault.getD "openai"
  | some p => if p = "default" then configDefault.getD "openai" else p

/-- The `providers_to_try` fallback chain (llm_provider.py lines 102-105):
start from `[provider]`, then append every other initialized provider in
registration order. -/
def buildChainAux : List ProviderEntry → List String → List String
  | [], acc => acc
  | e :: rest, acc =>
    if e.name ∉ acc ∧ e.initialized then buildChainAux rest (acc ++ [e.name])
    else buildChainAux rest acc

/-- `providers_to_try` for a resolved preferred provider. -/
def providersToTry (preferred : String) (providers : List ProviderEntry) : List String :=
  buildChainAux providers [preferred]

/-- One provider's retry loop (llm_provider.py lines 126-156).  `call r` models
the body of the `try:` block on attempt `r` (the Python `retries` counter at
call time): `Except.ok s` is a normal `return s` out of `generate_text`,
`Except.error e` a raised exception.  `fuel` is the remaining retry budget
`max_retries - retries`.  Result: the outcome (`Sum.inl s` for a return,
`Sum.inr lastError` when the budget is exhausted and the chain moves on) and
the trace of attempts made, as (provider, attempt index) pairs.  Sleeping and
backoff delays (lines 149-156) affect timing only and are not modelled. -/
def providerRetryLoop (call : Nat → Except E String) (p : String) :
    Nat → Nat → Option E → (String ⊕ Option E) × List (String × Nat)
  | _, 0, lastErr => (Sum.inr lastErr, [])
  | retries, fuel + 1, _ =>
    match call retries with
    | Except.ok s => (Sum.inl s, [(p, retries)])
    | Except.error e =>
      let rest := providerRetryLoop call p (retries + 1) fuel (some e)
      (rest.1, (p, retries) :: rest.2)

/-- The `for current_provider in providers_to_try` loop (llm_provider.py lines
114-156): skip providers that are not initialized, run each initialized one
through its retry loop, thread `last_error` through, stop at the first
successful attempt. -/
def tryProvidersAux (call : String → Nat → Except E String) (initialized : String → Bool)
    (maxRetries : Nat) : List String → Option E → (String ⊕ Option E) × List (String × Nat)
  | [], lastErr => (Sum.inr lastErr, [])
  | p :: chain, lastErr =>
    if initialized p then
      let r := providerRetryLoop (call p) p 0 maxRetries lastErr
      match r.1 with
      | Sum.inl s => (Sum.inl s, r.2)
      | Sum.inr e =>
        let next := tryProvidersAux call initialized maxRetries chain e
        (next.1, r.2 ++ next.2)
    else tryProvidersAux call initialized maxRetries chain lastErr

/-- `LLMProvider.generate_text` (llm_provider.py lines 78-159).  `call p r`
abstracts one attempt against provider `p` (the dispatch to
`_generate_with_openai` / `_generate_with_gemini`, or the `ValueError` for an
unknown name, lines 133-138).  The outcome `Sum.inr lastErr` models the single
final `raise Exception(f"All providers failed ... Last error: {last_error}")`
at line 159; `Sum.inl s` models `return s`.  The second component is the trace
of backend attempts, in order. -/
def generate_text (providers : List ProviderEntry) (call : String → Nat → Except E String)
    (providerArg : Option String) (configDefault : Option String) (maxRetries : Nat) :
    (String ⊕ Option E) × List (String × Nat) :=
  tryProvidersAux call (lookupInitialized providers) maxRetries
    (providersToTry (resolveProvider providerArg configDefault) providers) none

/-! ## Stable insertion sort, modelling Python `list.sort` -/

/-- Stable insertion of `x` into a list: before the first `y` with `le x y`. -/
def insItem (le : α → α → Bool) (x : α) : List α → List α
  | [] => [x]
  | y :: ys => if le x y then x :: y :: ys else y :: insItem le x ys

/-- Stable insertion sort: models Python's stable `list.sort(key=...)`
(ascending with `le a b = key a ≤ key b`) and
`list.sort(key=..., reverse=True)` (descending-stable with
`le a b = key b ≤ key a`). -/
def insSort (le : α → α → Bool) : List α → List α
  | [] => []
  | x :: xs => insItem le x (insSort le xs)

/-! ## Text chunking: `utils/text_processing.py`, `chunk_text` -/

/-- Python `str.rfind(c, start, stop)`: the highest index `i` with
`start ≤ i < stop` and `cs[i] = c`, else `-1`.  The last argument is `stop`
(every call site below has `stop ≤ cs.length`). -/
def pyRfind (cs : List Char) (c : Char) (start : Nat) : Nat → Int
  | 0 => -1
  | j + 1 =>
    if start ≤ j ∧ cs.getD j '\x00' = c then (j : Int) else pyRfind cs c start j

/-- The `end` computation of one `chunk_text` loop iteration
(text_processing.py lines 30-44): clamp to `start + max_chunk_size`, then move
back to just after the last sentence-ending character when one occurs late
enough in the chunk. -/
def chunkEnd (cs : List Char) (maxChunkSize start : Nat) : Nat :=
  let e := min (start + maxChunkSize) cs.length
  if e < cs.length then
    let sentenceEnd := max (pyRfind cs '.' start e)
      (max (pyRfind cs '?' start e) (pyRfind cs '!' start e))
    if sentenceEnd > (start : Int) + (maxChunkSize / 2 : Nat) then sentenceEnd.toNat + 1
    else e
  else e

/-- One iteration of the `chunk_text` while loop (lines 28-50): the chunk
`text[start:end]` and the next value of `start`
(`end - overlap if end - overlap > start else end`; note that in ℕ the
truncated subtraction agrees with Python here because a negative
`end - overlap` also fails the `> start` test). -/
def chunkStep (cs : List Char) (maxChunkSize overlap start : Nat) : List Char × Nat :=
  let e := chunkEnd cs maxChunkSize start
  (pySlice cs start e, if e - overlap > start then e - overlap else e)

/-- The `chunk_text` while loop with explicit fuel; `none` means the fuel ran
out.  For `max_chunk_size ≥ 1` fuel `cs.length - start` always suffices
(theorem `chunkLoop_isSome`); for `max_chunk_size = 0` and nonempty input no
fuel suffices, mirroring genuine non-termination of the Python loop. -/
def chunkLoop (cs : List Char) (maxChunkSize overlap : Nat) :
    Nat → Nat → Option (List (List Char))
  | 0, start => if start < cs.length then none else some []
  | fuel + 1, start =>
    if start < cs.length then
      (chunkLoop cs maxChunkSize overlap fuel (chunkStep cs maxChunkSize overlap start).2).map
        fun chunks => (chunkStep cs maxChunkSize overlap start).1 :: chunks
    else some []

/-- `chunk_text` (text_processing.py lines 10-52) on `List Char`.  Fuel
`cs.length` suffices for the loop whenever `max_chunk_size ≥ 1`. -/
def chunk_text (cs : List Char) (maxChunkSize : Nat := 2000) (overlap : Nat := 200) :
    Option (List (List Char)) :=
  if cs.length ≤ maxChunkSize then some [cs]
  else chunkLoop cs maxChunkSize overlap cs.length 0

/-- The reconstruction prescribed by the spec for C5: concatenate the chunks
in order, discarding the first `overlap` characters (the duplicated overlap)
of every chunk after the first. -/
def reassemble (overlap : Nat) : List (List Char) → List Char
  | [] => []
  | c :: rest => c ++ (rest.map fun d => d.drop overlap).flatten

/-! ## Reading statistics: `utils/text_processing.py`, `calculate_reading_statistics` -/

/-- Python `\w` on ASCII text: letters, digits, underscore. -/
def pyIsWordChar (c : Char) : Bool := c.isAlphanum || c = '_'

/-- Accumulator pass for `re.findall(r'\b\w+\b', text)`: collect the maximal
runs of word characters (`acc` is the current run, reversed). -/
def wordRunsAux : List Char → List Char → List (List Char)
  | [], acc => if acc.isEmpty then [] else [acc.reverse]
  | c :: cs, acc =>
    if pyIsWordChar c then wordRunsAux cs (c :: acc)
    else if acc.isEmpty then wordRunsAux cs []
    else acc.reverse :: wordRunsAux cs []

/-- Python `re.findall(r'\b\w+\b', text)`: the maximal runs of word
characters. -/
def wordRuns (cs : List Char) : List (List Char) := wordRunsAux cs []

/-- Accumulator pass for `re.split(r'[...]+', text)`: `inSep` records whether
the previous character was part of a separator run, `acc` the current piece
(reversed). -/
def reSplitAux (sep : Char → Bool) : List Char → Bool → List Char → List (List Char)
  | [], _, acc => [acc.reverse]
  | c :: cs, inSep, acc =>
    if sep c then
      if inSep then reSplitAux sep cs true acc
      else acc.reverse :: reSplitAux sep cs true []
    else reSplitAux sep cs false (c :: acc)

/-- Python `re.split(r'[...]+', text)` for the character class `sep`: the
pieces between maximal separator runs, including empty pieces at either end. -/
def reSplit (sep : Char → Bool) (cs : List Char) : List (List Char) :=
  reSplitAux sep cs false []

/-- Sentence-ending characters of `re.split(r'[.!?]+', text)`. -/
def isSentencePunct (c : Char) : Bool := c = '.' || c = '!' || c = '?'

/-- Python `sentences = [s.strip() for s in re.split(r'[.!?]+', text) if s.strip()]`
(text_processing.py lines 141-142). -/
def pySentences (cs : List Char) : List (List Char) :=
  ((reSplit isSentencePunct cs).map pyStrip).filter fun s => !s.isEmpty

/-- Vowels of `count_syllables` (`"aeiouy"`). -/
def isVowel (c : Char) : Bool :=
  c = 'a' || c = 'e' || c = 'i' || c = 'o' || c = 'u' || c = 'y'

/-- Count of vowel groups (text_processing.py lines 151-160): number of
positions where a vowel follows a non-vowel. -/
def vowelGroupsAux : List Char → Bool → Nat
  | [], _ => 0
  | c :: cs, prevIsVowel =>
    (if isVowel c && !prevIsVowel then 1 else 0) + vowelGroupsAux cs (isVowel c)

/-- Python `str.endswith(suffix)`. -/
def endsWith (cs suffix : List Char) : Bool := litAt suffix.reverse cs.reverse

/-- `count_syllables` (text_processing.py lines 145-170).  The result is an
`Int` because Python would keep a negative count (which in fact cannot occur:
each `endswith` adjustment fires only when the word contains a vowel). -/
def count_syllables (word : List Char) : Int :=
  let word := word.map Char.toLower
  if word.length ≤ 3 then 1
  else
    let count : Int := vowelGroupsAux word false
    let count := if endsWith word ['e'] && !endsWith word ['l', 'e'] then count - 1 else count
    let count := if endsWith word ['e', 's'] || endsWith word ['e', 'd'] then count - 1 else count
    if count = 0 then 1 else count

/-- Python `round(x, 2)` (round half to even at two decimals) on exact
rationals.  Python computes on IEEE doubles; that representation error is
abstracted away here (it plays no role in the guarded all-zero branch that C8
is about). -/
def pyRound2 (q : ℚ) : ℚ :=
  let t := q * 100
  let f : Int := Int.floor t
  let r := t - (f : ℚ)
  let n : Int :=
    if r < 1 / 2 then f
    else if 1 / 2 < r then f + 1
    else if f % 2 = 0 then f else f + 1
  (n : ℚ) / 100

/-- The result dict of `calculate_reading_statistics`. -/
structure ReadingStats where
  word_count : Nat
  sentence_count : Nat
  avg_words_per_sentence : ℚ
  avg_syllables_per_word : ℚ
  flesch_kincaid : ℚ
deriving DecidableEq

/-- `calculate_reading_statistics` (text_processing.py lines 129-200).  The
`sentence_count == 0` guard returns all-zero statistics before any division;
in the other branch the division by `sentence_count` is by a nonzero number
and the division by `word_count` is itself guarded. -/
def calculate_reading_statistics (cs : List Char) : ReadingStats :=
  let words := wordRuns (cs.map Char.toLower)
  let sentences := pySentences cs
  let totalSyllables : Int := (words.map count_syllables).sum
  let wordCount := words.length
  let sentenceCount := sentences.length
  if sentenceCount = 0 then
    ⟨wordCount, 0, 0, 0, 0⟩
  else
    let avgWords : ℚ := (wordCount : ℚ) / (sentenceCount : ℚ)
    let avgSyll : ℚ := if 0 < wordCount then (totalSyllables : ℚ) / (wordCount : ℚ) else 0
    let fk : ℚ := 39 / 100 * avgWords + 118 / 10 * avgSyll - 1559 / 100
    ⟨wordCount, sentenceCount, pyRound2 avgWords, pyRound2 avgSyll, pyRound2 fk⟩

/-! ## Repeated phrases: `utils/text_processing.py`, `find_repeated_phrases` -/

/-- Python `str.split()` with no argument: whitespace-delimited tokens, with
empty tokens discarded. -/
def pySplitWsChars (cs : List Char) : List (List Char) :=
  (reSplit pyIsSpace cs).filter fun t => !t.isEmpty

/-- Python `' '.join(tokens)`. -/
def joinSpace : List (List Char) → List Char
  | [] => []
  | [t] => t
  | t :: ts => t ++ ' ' :: joinSpace ts

/-- Python `phrases[phrase] = phrases.get(phrase, 0) + 1` on an
insertion-ordered dict modelled as an association list
(text_processing.py line 342). -/
def bumpCount : List (List Char × Nat) → List Char → List (List Char × Nat)
  | [], k => [(k, 1)]
  | e :: m, k => if e.1 = k then (e.1, e.2 + 1) :: m else e :: bumpCount m k

/-- Python `phrases.get(k, 0)` on the association-list dict. -/
def lookupCount : List (List Char × Nat) → List Char → Nat
  | [], _ => 0
  | e :: m, k => if e.1 = k then e.2 else lookupCount m k

/-- The n-gram counting loop of `find_repeated_phrases` (lines 340-342):
`for i in range(len(words) - min_length + 1)` (empty when negative), counting
`' '.join(words[i:i+min_length])`. -/
def phraseDict (ws : List (List Char)) (minLength : Nat) : List (List Char × Nat) :=
  (List.range (ws.length + 1 - minLength)).foldl
    (fun m i => bumpCount m (joinSpace ((ws.drop i).take minLength))) []

/-- `find_repeated_phrases` (text_processing.py lines 321-350): n-gram counts
over the lower-cased whitespace tokens, filtered by the occurrence threshold
and sorted by descending count (Python's stable `sort(key=..., reverse=True)`). -/
def find_repeated_phrases (cs : List Char) (minLength : Nat := 3)
    (minOccurrences : Nat := 3) : List (List Char × Nat) :=
  let words := pySplitWsChars (cs.map Char.toLower)
  let repeated := (phraseDict words minLength).filter fun e => minOccurrences ≤ e.2
  insSort (fun a b => b.2 ≤ a.2) repeated

/-! ## Writer agent: `agents/writer.py` -/

/-- Python `str.split()` on a Lean `String` (whitespace tokens, empties
discarded). -/
def pyWords (s : String) : List String :=
  (s.split fun c => pyIsSpace c).filter fun t => t ≠ ""

/-- Python `len(s.split())`: the whitespace-token word count used by
`_write_long_chapter`. -/
def pyWordCount (s : String) : Nat := (pyWords s).length

/-- The `chapter_info` dict fields read by `write_chapter` (writer.py lines
34-37), each `.get` with its default. -/
structure ChapterInfo where
  chapter_num : Option Int := none
  title : Option String := none
  summary : Option String := none
  word_count : Option Int := none

/-- One entry of the previous-chapters context (writer.py lines 46-55). -/
def prevChapterEntry (chapterNum : Int) (lastTwoLen i : Nat) (prevChapter : String) :
    String :=
  let prevIdx : Int := chapterNum - (lastTwoLen : Int) + (i : Int)
  let prevWords := pyWords prevChapter
  let startContext :=
    if 200 < prevWords.length then String.intercalate " " (prevWords.take 200)
    else prevChapter
  let endContext :=
    if 400 < prevWords.length then
      String.intercalate " " (prevWords.drop (prevWords.length - 200))
    else ""
  "Chapter " ++ toString prevIdx ++ " beginning: " ++ startContext ++ "\n\n" ++
    (if endContext ≠ "" then
      "Chapter " ++ toString prevIdx ++ " ending: " ++ endContext ++ "\n\n"
    else "")

/-- `prev_chapters_context` (writer.py lines 42-55): summaries of the last two
previous chapters. -/
def prevChaptersContext (chapterNum : Int) (previousChapters : List String) : String :=
  if previousChapters.isEmpty then ""
  else
    let lastTwo := previousChapters.drop (previousChapters.length - 2)
    "\n\nContext from previous chapters (for continuity):\n" ++
      String.join ((List.range lastTwo.length).map fun i =>
        prevChapterEntry chapterNum lastTwo.length i (lastTwo.getD i ""))

/-- The `chapter_prompt` f-string (writer.py lines 58-78). -/
def chapter_prompt_string (chapterNum : Int) (chapterTitle writingStyle summary
    profiles prevContext : String) (target : Int) : String :=
  "\n        Write Chapter " ++ toString chapterNum ++ ": \"" ++ chapterTitle ++
  "\" for a story in the " ++ writingStyle ++
  " style.\n        \n        Chapter Summary:\n        " ++ summary ++
  "\n        \n        Character Information (reference for consistency):\n        " ++
  profiles.take 2000 ++ "...\n        " ++ prevContext ++
  "\n        \n        Guidelines:\n        - Target word count: Approximately " ++
  toString target ++ " words\n        - Writing style: " ++ writingStyle ++
  "\n        - Include vivid description, engaging dialogue, and meaningful character development\n        - Focus on showing rather than telling\n        - Maintain consistent character voices based on their profiles\n        - Advance the plot as outlined in the chapter summary\n        - End the chapter in a way that encourages the reader to continue\n        \n        Begin the chapter directly with the narrative, without including the chapter number or title.\n        "

/-- The full chapter prompt built by `write_chapter` (writer.py lines 34-78),
defaults applied as in the `.get` calls. -/
def chapter_prompt (info : ChapterInfo) (previousChapters : List String)
    (characterProfiles writingStyle : String) : String :=
  let chapterNum := info.chapter_num.getD 1
  let chapterTitle := info.title.getD ("Chapter " ++ toString chapterNum)
  let chapterSummary := info.summary.getD ""
  let target := info.word_count.getD 3000
  chapter_prompt_string chapterNum chapterTitle writingStyle chapterSummary
    characterProfiles (prevChaptersContext chapterNum previousChapters) target

/-- The `continuation_prompt` f-string (writer.py lines 125-134). -/
def continuation_prompt (wordsPerChunk : Int) (prevTail : String) : String :=
  "\n            Continue the following chapter, adding approximately " ++
  toString wordsPerChunk ++
  " more words.\n            Maintain the same style, tone, and character voices.\n            Pick up exactly where the previous section left off without any recapping or transition phrases.\n            \n            Previous section:\n            " ++
  prevTail ++ "\n            \n            Continue directly from this point:\n            "

/-- Result of `_write_long_chapter`: the combined chapter, the prompts sent to
the provider (in order), and the generated chunks (one per prompt). -/
structure LongChapterRun where
  result : String
  prompts : List String
  chunks : List String

/-- The chunk loop of `_write_long_chapter` (writer.py lines 113-141):
`fuel = max_chunks + 1 - i` loop iterations remain; stop as soon as
`total_words >= target_word_count`; otherwise shrink `words_per_chunk` to the
remainder when it is below 1000, build the continuation prompt from the last
500 characters of the previous chunk, and generate one more chunk.  Returns
the later chunks and their prompts. -/
def writeLongAux (generate : String → String) (target : Int) :
    Nat → Int → Int → String → List String × List String
  | 0, _, _, _ => ([], [])
  | fuel + 1, totalWords, wordsPerChunk, lastChunk =>
    if target ≤ totalWords then ([], [])
    else
      let remaining := target - totalWords
      let wpc := if remaining < 1000 then remaining else wordsPerChunk
      let prompt := continuation_prompt wpc (lastChunk.drop (lastChunk.length - 500))
      let c := generate prompt
      let next := writeLongAux generate target fuel (totalWords + (pyWordCount c : Int)) wpc c
      (c :: next.1, prompt :: next.2)

/-- `WriterAgent._write_long_chapter` (writer.py lines 86-145).  `generate`
abstracts `self.generate` (one provider call per invocation; `Agent.generate`
forwards the prompt to `LLMProvider.generate_text` unchanged).  `max_chunks`
must be positive (Python would raise `ZeroDivisionError` at
`target_word_count // max_chunks` otherwise); the default is 3. -/
def write_long_chapter (generate : String → String) (initialPrompt : String)
    (targetWordCount : Int) (maxChunks : Nat := 3) : LongChapterRun :=
  let wordsPerChunk : Int := min 2500 (Int.fdiv targetWordCount (maxChunks : Int))
  let firstChunk := generate initialPrompt
  let next := writeLongAux generate targetWordCount (maxChunks - 1)
    (pyWordCount firstChunk : Int) wordsPerChunk firstChunk
  ⟨String.intercalate "\n\n" (firstChunk :: next.1), initialPrompt :: next.2,
   firstChunk :: next.1⟩

/-- `WriterAgent.write_chapter` (writer.py lines 20-84): build the chapter
prompt; when the target word count exceeds 3000 delegate to
`_write_long_chapter` (default `max_chunks = 3`), otherwise make exactly one
`generate` call and return its result unchanged.  Returns the chapter text
together with the list of prompts sent to the provider, in order. -/
def write_chapter (generate : String → String) (info : ChapterInfo)
    (previousChapters : List String) (characterProfiles writingStyle : String) :
    String × List String :=
  let target := info.word_count.getD 3000
  let prompt := chapter_prompt info previousChapters characterProfiles writingStyle
  if 3000 < target then
    let r := write_long_chapter generate prompt target 3
    (r.result, r.prompts)
  else
    (generate prompt, [prompt])

/-! ## Outline parsing: `utils/parsing.py`, `parse_outline` -/

/-- Length of the maximal whitespace run of `cs` starting at `i`
(the greedy `\s*`). -/
def wsRun (cs : List Char) (i : Nat) : Nat :=
  ((cs.drop i).takeWhile pyIsSpace).length

/-- Length of the maximal digit run of `cs` starting at `i`
(the greedy `\d+`). -/
def digRun (cs : List Char) (i : Nat) : Nat :=
  ((cs.drop i).takeWhile Char.isDigit).length

/-- Python `int` of a digit string. -/
def natOfDigits (ds : List Char) : Nat :=
  ds.foldl (fun n c => n * 10 + (c.toNat - 48)) 0

/-- Python `str(n)` as a character list. -/
def intString (n : Nat) : List Char := (toString n).toList

/-- Least position `k` with `i ≤ k ≤ cs.length` and `p k` (regex engines try
candidate positions left to right); `fuel` bounds the scan. -/
def findFromAux (len : Nat) (p : Nat → Bool) : Nat → Nat → Option Nat
  | _, 0 => none
  | i, fuel + 1 =>
    if p i then some i
    else if i < len then findFromAux len p (i + 1) fuel
    else none

/-- Least position `k` with `i ≤ k ≤ cs.length` and `p k`. -/
def findFrom (cs : List Char) (p : Nat → Bool) (i : Nat) : Option Nat :=
  findFromAux cs.length p i (cs.length + 2)

/-- Greatest position `k` with `lo ≤ k < hi` and `p k` (the backtracking
order of a greedy sub-expression). -/
def findDown (p : Nat → Bool) (lo : Nat) : Nat → Option Nat
  | 0 => none
  | hi + 1 =>
    if lo ≤ hi ∧ p hi then some hi
    else if lo ≤ hi then findDown p lo hi
    else none

/-- The lookahead `(?=\n(?:Summary|Estimated))` at position `k`. -/
def laSumEst (cs : List Char) (k : Nat) : Bool :=
  litAt ("\nSummary".toList) (cs.drop k) || litAt ("\nEstimated".toList) (cs.drop k)

/-- Python `$` with no `re.MULTILINE`: matches at the end of the string and
just before a final newline. -/
def dollarAt (cs : List Char) (k : Nat) : Bool :=
  k = cs.length || (k + 1 = cs.length && cs.getD k '\x00' = '\n')

/-- Match the regex tail `\s*(.*?)(?=\n(?:Summary|Estimated))` starting at
position `j`, under `re.DOTALL`: the greedy `\s*` first takes the maximal
whitespace run, and the lazy group then ends at the first lookahead position
at or after it; when no such position exists the engine backtracks `\s*`, and
the first success has the group empty at the last lookahead position inside
the whitespace run.  (Behaviour checked against CPython `re` on concrete
probes.)  Returns (group, match end), `none` when there is no match from `j`. -/
def tailTitle (cs : List Char) (j : Nat) : Option (List Char × Nat) :=
  let w := wsRun cs j
  match findFrom cs (laSumEst cs) (j + w) with
  | some k => some (pySlice cs (j + w) k, k)
  | none =>
    match findDown (laSumEst cs) j (j + w) with
    | some k => some ([], k)
    | none => none

/-- One attempted match of `Chapter (\d+):\s*(.*?)(?=\n(?:Summary|Estimated))`
(parsing.py line 24) at position `i`: returns ((digit group, title group),
match end). -/
def p1At (cs : List Char) (i : Nat) : Option ((List Char × List Char) × Nat) :=
  if litAt ("Chapter ".toList) (cs.drop i) then
    let d := digRun cs (i + 8)
    if d ≠ 0 ∧ cs.getD (i + 8 + d) '\x00' = ':' then
      match tailTitle cs (i + 8 + d + 1) with
      | some (t, e) => some ((pySlice cs (i + 8) (i + 8 + d), t), e)
      | none => none
    else none
  else none

/-- One attempted match of the alternative pattern
`(?:Chapter \d+|Chapter):\s*(.*?)(?=\n(?:Summary|Estimated))` (parsing.py
line 29) at position `i`.  The first alternative requires `Chapter `, digits
and `:`; if `Chapter ` plus digits matched but the colon is missing, the
second alternative also fails (its colon would have to sit where the space
is), so the attempt fails. -/
def paltAt (cs : List Char) (i : Nat) : Option (List Char × Nat) :=
  let d := digRun cs (i + 8)
  if litAt ("Chapter ".toList) (cs.drop i) ∧ d ≠ 0 then
    if cs.getD (i + 8 + d) '\x00' = ':' then tailTitle cs (i + 8 + d + 1) else none
  else if litAt ("Chapter:".toList) (cs.drop i) then tailTitle cs (i + 8)
  else none

/-- Python `re.findall` / `re.finditer` scanning: try a match at each position
left to right, resuming after the previous match's end (all patterns used here
have positive width). -/
def scanallAux (len : Nat) (matchAt : Nat → Option (α × Nat)) : Nat → Nat → List α
  | _, 0 => []
  | i, fuel + 1 =>
    if i ≤ len then
      match matchAt i with
      | some (a, e) => a :: scanallAux len matchAt (max e (i + 1)) fuel
      | none => scanallAux len matchAt (i + 1) fuel
    else []

/-- Python `re.findall(pattern, cs)` given the single-position matcher. -/
def scanall (cs : List Char) (matchAt : Nat → Option (α × Nat)) : List α :=
  scanallAux cs.length matchAt 0 (cs.length + 2)

/-- Python `re.search(f'Chapter {num}:.*?(?=Chapter {num+1}:|$)', outline,
re.DOTALL)` (parsing.py lines 39-40): find the first occurrence of the
literal `Chapter num:`; the lazy `.*?` then extends to the first following
position where `Chapter num+1:` or `$` matches (`$` always matches at the
end, so the match succeeds whenever the literal occurs).  Returns the matched
block. -/
def searchBlock (cs curLit nextLit : List Char) : Option (List Char) :=
  match findFrom cs (fun i => litAt curLit (cs.drop i)) 0 with
  | none => none
  | some i =>
    let j := i + curLit.length
    let k := (findFrom cs (fun k => litAt nextLit (cs.drop k) || dollarAt cs k) j).getD
      cs.length
    some (pySlice cs i k)

/-- Python `outline.split(nextLit)[0].split(curLit)[1]` (parsing.py line 44):
`split(sep)[0]` is the prefix before the first occurrence of `sep` (the whole
string when `sep` is absent); `[1]` is the piece between the first and second
occurrences of `curLit` in that prefix, and raises `IndexError` when `curLit`
does not occur in it.  (This line runs exactly when `searchBlock` failed, i.e.
when `curLit` does not occur at all, so the `IndexError` is unavoidable
whenever the line is reached.) -/
def splitIndexOne (cs curLit nextLit : List Char) : Except Unit (List Char) :=
  let part0 :=
    match findFrom cs (fun i => litAt nextLit (cs.drop i)) 0 with
    | some i => cs.take i
    | none => cs
  match findFrom part0 (fun i => litAt curLit (part0.drop i)) 0 with
  | none => Except.error ()
  | some i =>
    let rest := part0.drop (i + curLit.length)
    match findFrom rest (fun i2 => litAt curLit (rest.drop i2)) 0 with
    | some i2 => Except.ok (rest.take i2)
    | none => Except.ok rest

/-- Python `re.search(r'Summary:\s*(.*?)(?=\nEstimated|$)', block, re.DOTALL)`
(parsing.py lines 50-52): after the first `Summary:`, the greedy `\s*` then
the lazy group up to the first `\nEstimated` or `$` position (one always
exists, so no backtracking arises). -/
def searchSummary (block : List Char) : Option (List Char) :=
  match findFrom block (fun i => litAt ("Summary:".toList) (block.drop i)) 0 with
  | none => none
  | some i =>
    let j := i + 8 + wsRun block (i + 8)
    let k := (findFrom block
      (fun k => litAt ("\nEstimated".toList) (block.drop k) || dollarAt block k) j).getD
      block.length
    some (pySlice block j k)

/-- Python `re.search(r'Estimated word count:\s*(\d[,\d]*)', block)`
(parsing.py lines 55-63): the first occurrence of the literal followed, after
the whitespace run, by a digit; the group is the maximal run of digits and
commas from that digit.  Commas are stripped and the digits parsed (the
`int()` cannot fail, so the `ValueError` fallback to 3000 is dead code). -/
def searchWordCount (block : List Char) : Option Nat :=
  match findFrom block (fun i =>
      litAt ("Estimated word count:".toList) (block.drop i) &&
      Char.isDigit (block.getD (i + 21 + wsRun block (i + 21)) '\x00')) 0 with
  | none => none
  | some i =>
    let j := i + 21 + wsRun block (i + 21)
    let grp := (block.drop j).takeWhile fun c => Char.isDigit c || c = ','
    some (natOfDigits (grp.filter Char.isDigit))

/-- One parsed chapter record of `parse_outline` /
`_lenient_parse_outline`. -/
structure PyChapter where
  chapter_num : Nat
  title : List Char
  summary : List Char
  word_count : Nat
deriving DecidableEq

/-- The body of the `for i, (chapter_num, title) in enumerate(chapter_matches)`
loop of `parse_outline` (parsing.py lines 37-75), for one match. -/
def processChapter (cs : List Char) (numStr title : List Char) :
    Except Unit PyChapter :=
  let n := natOfDigits numStr
  let curLit := "Chapter ".toList ++ numStr ++ [':']
  let nextLit := "Chapter ".toList ++ intString (n + 1) ++ [':']
  let blockE : Except Unit (List Char) :=
    match searchBlock cs curLit nextLit with
    | some b => Except.ok b
    | none =>
      match splitIndexOne cs curLit nextLit with
      | Except.ok parts => Except.ok (pyStrip parts)
      | Except.error e => Except.error e
  match blockE with
  | Except.error e => Except.error e
  | Except.ok block =>
    let summary := match searchSummary block with
      | some s => pyStrip s
      | none => []
    Except.ok ⟨n, pyStrip title, summary, (searchWordCount block).getD 3000⟩

/-- The whole `for` loop of `parse_outline` over `chapter_matches`, with the
`IndexError` propagating out. -/
def processAll (cs : List Char) : List (List Char × List Char) →
    Except Unit (List PyChapter)
  | [] => Except.ok []
  | (numStr, title) :: rest =>
    match processChapter cs numStr title with
    | Except.error e => Except.error e
    | Except.ok ch =>
      match processAll cs rest with
      | Except.error e => Except.error e
      | Except.ok chs => Except.ok (ch :: chs)

/-- One attempted match of `Chapter \d+|CHAPTER \d+` (parsing.py line 100) at
position `i`; returns the match end. -/
def chapterMarkerAt (cs : List Char) (i : Nat) : Option Nat :=
  if litAt ("Chapter ".toList) (cs.drop i) ∧ digRun cs (i + 8) ≠ 0 then
    some (i + 8 + digRun cs (i + 8))
  else if litAt ("CHAPTER ".toList) (cs.drop i) ∧ digRun cs (i + 8) ≠ 0 then
    some (i + 8 + digRun cs (i + 8))
  else none

/-- Python `re.split(pattern, text)` for a group-free pattern: the pieces
between successive leftmost non-overlapping matches, including empty
pieces. -/
def resplitAux (cs : List Char) (matchAt : Nat → Option Nat) :
    Nat → Nat → Nat → List (List Char)
  | pieceStart, _, 0 => [pySlice cs pieceStart cs.length]
  | pieceStart, i, fuel + 1 =>
    if i ≤ cs.length then
      match matchAt i with
      | some e => pySlice cs pieceStart i :: resplitAux cs matchAt e (max e (i + 1)) fuel
      | none => resplitAux cs matchAt pieceStart (i + 1) fuel
    else [pySlice cs pieceStart cs.length]

/-- Python `re.split(pattern, cs)` given the single-position matcher. -/
def resplit (cs : List Char) (matchAt : Nat → Option Nat) : List (List Char) :=
  resplitAux cs matchAt 0 0 (cs.length + 2)

/-- The title punctuation class `[:\-–—]` of `_lenient_parse_outline`
(parsing.py line 111). -/
def isTitlePunct (c : Char) : Bool := c = ':' || c = '-' || c = '–' || c = '—'

/-- One attempted match of `[:\-–—]\s*([^\n]+)` at position `i`: the greedy
`\s*` backtracks against the mandatory `[^\n]+`.  Case 1: a character other
than newline follows the maximal whitespace run; the group is the maximal
newline-free run from there.  Case 2 (backtrack): the group starts at the
last whitespace character of the run that is not a newline.  (Behaviour
checked against CPython `re` on concrete probes.)  Returns (group, match
end). -/
def titleMatchAt (cs : List Char) (i : Nat) : Option (List Char × Nat) :=
  if isTitlePunct (cs.getD i '\x00') ∧ i < cs.length then
    let j := i + 1
    let w := wsRun cs j
    if j + w < cs.length ∧ cs.getD (j + w) '\x00' ≠ '\n' then
      let grp := (cs.drop (j + w)).takeWhile fun c => c ≠ '\n'
      some (grp, j + w + grp.length)
    else
      match findDown (fun k => !(cs.getD k '\x00' = '\n')) j (j + w) with
      | some k =>
        let grp := (cs.drop k).takeWhile fun c => c ≠ '\n'
        some (grp, k + grp.length)
      | none => none
  else none

/-- Python `re.search(r'[:\-–—]\s*([^\n]+)', block)` (parsing.py line 111):
first matching position, with (group 1, match start, match end). -/
def searchTitle (cs : List Char) : Option (List Char × Nat × Nat) :=
  match findFrom cs (fun i => (titleMatchAt cs i).isSome) 0 with
  | none => none
  | some i =>
    match titleMatchAt cs i with
    | some (g, e) => some (g, i, e)
    | none => none

/-- Python `str.replace(old, "", 1)`: remove the leftmost occurrence of
`old`, if any (parsing.py line 117). -/
def removeFirst (cs pat : List Char) : List Char :=
  match findFrom cs (fun i => litAt pat (cs.drop i)) 0 with
  | some i => cs.take i ++ cs.drop (i + pat.length)
  | none => cs

/-- Case-insensitive literal match (ASCII lower-casing, as `re.IGNORECASE`
does on this input). -/
def litAtCI : List Char → List Char → Bool
  | [], _ => true
  | _ :: _, [] => false
  | a :: as, b :: bs => a.toLower = b.toLower && litAtCI as bs

/-- One attempted match of
`(?:Estimated|Target|Approximate)[^\d]*(\d[,\d]*)[^\d]*words` under
`re.IGNORECASE` (parsing.py line 120) at position `i`.  The first `[^\d]*`
runs exactly to the first digit (a shorter split would place a non-digit
where `\d` must match); the group is the maximal `[,\d]` run from that digit
(shrinking it cannot help, because `words` starts with a letter, which never
occurs in the shed `[,\d]` region); the final greedy `[^\d]*` backtracks, so
`words` matches at the last possible position before the next digit or the
end.  (Behaviour checked against CPython `re` on concrete probes.)  Returns
(group 1, match end). -/
def wcLenientAt (cs : List Char) (i : Nat) : Option (List Char × Nat) :=
  let kw :=
    if litAtCI ("Estimated".toList) (cs.drop i) then some 9
    else if litAtCI ("Target".toList) (cs.drop i) then some 6
    else if litAtCI ("Approximate".toList) (cs.drop i) then some 11
    else none
  match kw with
  | none => none
  | some n =>
    let p := i + n + ((cs.drop (i + n)).takeWhile fun c => !c.isDigit).length
    if p < cs.length then
      let grp := (cs.drop p).takeWhile fun c => c.isDigit || c = ','
      let q := p + grp.length
      let r := q + ((cs.drop q).takeWhile fun c => !c.isDigit).length
      match findDown (fun s => litAtCI ("words".toList) (cs.drop s)) q (r + 1) with
      | some s => some (grp, s + 5)
      | none => none
    else none

/-- Python `re.search` for the lenient word-count pattern. -/
def searchWcLenient (cs : List Char) : Option (List Char × Nat) :=
  match findFrom cs (fun i => (wcLenientAt cs i).isSome) 0 with
  | none => none
  | some i => wcLenientAt cs i

/-- Python `re.sub(pattern, "", text)`: remove every leftmost non-overlapping
match (parsing.py line 132). -/
def subAllAux (cs : List Char) (matchAt : Nat → Option (List Char × Nat)) :
    Nat → Nat → Nat → List Char
  | pieceStart, _, 0 => pySlice cs pieceStart cs.length
  | pieceStart, i, fuel + 1 =>
    if i ≤ cs.length then
      match matchAt i with
      | some (_, e) => pySlice cs pieceStart i ++ subAllAux cs matchAt e (max e (i + 1)) fuel
      | none => subAllAux cs matchAt pieceStart (i + 1) fuel
    else pySlice cs pieceStart cs.length

/-- Python `re.sub(pattern, "", cs)` given the single-position matcher. -/
def subAll (cs : List Char) (matchAt : Nat → Option (List Char × Nat)) : List Char :=
  subAllAux cs matchAt 0 0 (cs.length + 2)

/-- The per-block body of the `for i, block in enumerate(chapter_blocks)` loop
of `_lenient_parse_outline` (parsing.py lines 106-145); `none` models the
`continue` on blank blocks.  (As in the strict branch, the `int()` on the
captured digits cannot fail, so the `ValueError` branch keeping the default
is dead code.) -/
def lenientBlock (idx : Nat) (block : List Char) : Option PyChapter :=
  if (pyStrip block).isEmpty then none
  else
    let tm := searchTitle block
    let title := match tm with
      | some (g, _, _) => pyStrip g
      | none => ("Chapter " ++ toString (idx + 1)).toList
    let summary0 := match tm with
      | some (_, s, e) => removeFirst block (pySlice block s e)
      | none => block
    let wcAndSummary := match searchWcLenient summary0 with
      | some (grp, _) =>
        (natOfDigits (grp.filter Char.isDigit), subAll summary0 (wcLenientAt summary0))
      | none => (3000, summary0)
    some ⟨idx + 1, title, pyStrip wcAndSummary.2, wcAndSummary.1⟩

/-- `_lenient_parse_outline` (parsing.py lines 87-147). -/
def lenient_parse_outline (cs : List Char) : List PyChapter :=
  let blocks0 := resplit cs (chapterMarkerAt cs)
  let blocks := match blocks0 with
    | [] => []
    | b :: rest => if (pyStrip b).isEmpty then rest else blocks0
  (List.range blocks.length).filterMap fun i => lenientBlock i (blocks.getD i [])

/-- The `chapter_matches` computation of `parse_outline` (parsing.py lines
23-34): the strict pattern's (number, title) matches; when there are none, the
alternative pattern's matches renumbered 1, 2, … with stripped titles. -/
def chapterMatchesOf (cs : List Char) : List (List Char × List Char) :=
  let m1 := scanall cs (p1At cs)
  if m1.isEmpty then
    let alt := scanall cs (paltAt cs)
    (List.range alt.length).map fun i => (intString (i + 1), pyStrip (alt.getD i []))
  else m1

/-- `parse_outline` (parsing.py lines 10-85).  `Except.error ()` models the
`IndexError` raised by line 44; the final step is Python's stable
`chapters.sort(key=lambda x: x["chapter_num"])`. -/
def parse_outline (cs : List Char) : Except Unit (List PyChapter) :=
  match processAll cs (chapterMatchesOf cs) with
  | Except.error e => Except.error e
  | Except.ok chapters =>
    Except.ok (insSort (fun a b => a.chapter_num ≤ b.chapter_num)
      (if chapters.isEmpty then lenient_parse_outline cs else chapters))

/-! ## Lemmas for the provider gateway -/

theorem providerRetryLoop_all_fail (call : Nat → Except E String) (p : String)
    (errf : Nat → E) (hcall : ∀ n, call n = Except.error (errf n)) :
    ∀ fuel retries lastErr,
      providerRetryLoop call p retries fuel lastErr =
        (Sum.inr (if fuel = 0 then lastErr else some (errf (retries + fuel - 1))),
         (List.range' retries fuel).map fun k => (p, k)) := by
  intro fuel
  induction fuel with
  | zero =>
    intro retries lastErr
    simp [providerRetryLoop]
  | succ fuel ih =>
    intro retries lastErr
    simp only [providerRetryLoop, hcall retries]
    rw [ih (retries + 1) (some (errf retries))]
    have harith : retries + 1 + fuel - 1 = retries + (fuel + 1) - 1 := by omega
    rcases Nat.eq_zero_or_pos fuel with h0 | hpos
    · subst h0
      simp [List.range'_succ]
    · have hne : fuel ≠ 0 := Nat.pos_iff_ne_zero.mp hpos
      simp [hne, List.range'_succ, harith]

theorem providerRetryLoop_first_ok (call : Nat → Except E String) (p : String)
    (s : String) (hcall : call 0 = Except.ok s) (fuel : Nat) (hfuel : 1 ≤ fuel)
    (lastErr : Option E) :
    providerRetryLoop call p 0 fuel lastErr = (Sum.inl s, [(p, 0)]) := by
  cases fuel with
  | zero => omega
  | succ fuel => simp [providerRetryLoop, hcall]

theorem tryProvidersAux_all_fail (call : String → Nat → Except E String)
    (initialized : String → Bool) (errf : String → Nat → E)
    (hcall : ∀ p n, call p n = Except.error (errf p n)) (maxRetries : Nat)
    (hmr : 1 ≤ maxRetries) :
    ∀ (chain : List String) (lastErr : Option E),
      tryProvidersAux call initialized maxRetries chain lastErr =
        (Sum.inr ((chain.filter initialized).foldl
            (fun _ p => some (errf p (maxRetries - 1))) lastErr),
         (chain.filter initialized).flatMap
            fun p => (List.range maxRetries).map fun k => (p, k)) := by
  intro chain
  induction chain with
  | nil => intro lastErr; simp [tryProvidersAux]
  | cons p chain ih =>
    intro lastErr
    cases hp : initialized p with
    | true =>
      have hne : maxRetries ≠ 0 := by omega
      have hloop := providerRetryLoop_all_fail (call p) p (errf p) (fun n => hcall p n)
        maxRetries 0 lastErr
      rw [if_neg hne] at hloop
      have hz : 0 + maxRetries - 1 = maxRetries - 1 := by omega
      rw [hz] at hloop
      simp only [tryProvidersAux, hp, if_true, hloop, ih, List.filter_cons, cond_true,
        List.flatMap_cons, List.foldl_cons, List.range_eq_range']
    | false =>
      simp only [tryProvidersAux, hp, if_false, ih, List.filter_cons, cond_false]
      simp [hp]

theorem foldl_const_some (f : α → β) :
    ∀ (l : List α) (a : α) (init : Option β),
      (a :: l).foldl (fun _ p => some (f p)) init = ((a :: l).getLast?).map f := by
  intro l
  induction l with
  | nil => intro a init; simp
  | cons b l ih =>
    intro a init
    rw [List.foldl_cons, ih b (some (f a)), List.getLast?_cons_cons]

/-- C1: if every initialized provider's backend call always raises, then
`generate_text` raises exactly once (the single `raise` at line 159, modelled
by the `Sum.inr` outcome), after making exactly `maxRetries` attempts against
each initialized provider of the fallback chain — `maxRetries × providerCount`
attempts in total, and no others — and the raised exception carries the last
error encountered, i.e. the error of the final attempt against the last
initialized provider in the chain. -/
theorem generate_text_all_providers_fail
    (providers : List ProviderEntry) (call : String → Nat → Except E String)
    (providerArg configDefault : Option String) (maxRetries : Nat)
    (errf : String → Nat → E)
    (hcall : ∀ p n, call p n = Except.error (errf p n))
    (hmr : 1 ≤ maxRetries) :
    (generate_text providers call providerArg configDefault maxRetries).1 =
        Sum.inr ((((providersToTry (resolveProvider providerArg configDefault)
            providers).filter (lookupInitialized providers)).getLast?).map
            fun p => errf p (maxRetries - 1)) ∧
    (generate_text providers call providerArg configDefault maxRetries).2 =
        ((providersToTry (resolveProvider providerArg configDefault)
            providers).filter (lookupInitialized providers)).flatMap
            (fun p => (List.range maxRetries).map fun k => (p, k)) ∧
    (generate_text providers call providerArg configDefault maxRetries).2.length =
        maxRetries * ((providersToTry (resolveProvider providerArg configDefault)
            providers).filter (lookupInitialized providers)).length := by
  have h := tryProvidersAux_all_fail call (lookupInitialized providers) errf hcall
    maxRetries hmr
    (providersToTry (resolveProvider providerArg configDefault) providers) none
  unfold generate_text
  rw [h]
  refine ⟨?_, rfl, ?_⟩
  · show Sum.inr _ = Sum.inr _
    congr 1
    cases hfl : (providersToTry (resolveProvider providerArg configDefault)
        providers).filter (lookupInitialized providers) with
    | nil => rfl
    | cons a l => rw [foldl_const_some]
  · show (List.flatMap _ _).length = _
    generalize (providersToTry (resolveProvider providerArg configDefault)
        providers).filter (lookupInitialized providers) = l
    induction l with
    | nil => simp
    | cons a l ih => simp [ih, Nat.mul_succ, Nat.add_comm]

/-- C1 witness: two initialized providers (`openai`, `gemini`), every call
failing, `maxRetries = 2`. -/
theorem generate_text_all_providers_fail_witness :
    (generate_text [⟨"openai", true⟩, ⟨"gemini", true⟩]
        (fun _ n => Except.error n) none none 2).1 =
      Sum.inr (((((providersToTry (resolveProvider none none)
          [⟨"openai", true⟩, ⟨"gemini", true⟩])).filter
          (lookupInitialized [⟨"openai", true⟩, ⟨"gemini", true⟩])).getLast?).map
          (fun _ => 1)) ∧
    (generate_text [⟨"openai", true⟩, ⟨"gemini", true⟩]
        (fun _ n => Except.error n) none none 2).2 =
      [("openai", 0), ("openai", 1), ("gemini", 0), ("gemini", 1)] := by
  have h := generate_text_all_providers_fail
    [⟨"openai", true⟩, ⟨"gemini", true⟩] (fun _ n => Except.error n) none none 2
    (fun _ n => n) (fun _ _ => rfl) (by decide)
  refine ⟨h.1, ?_⟩
  rw [h.2.1]
  rfl

/-- C2: with two initialized providers where every call to the first (the
preferred one) raises and every call to the second succeeds, `generate_text`
returns the second provider's result and does not raise; the trace shows all
of the first provider's attempts strictly before the single successful attempt
on the second.  The registry order is `[e2, e1]` and the preferred provider is
`e1`, so the chain `[e1.name, e2.name]` also exhibits the preferred-first /
registration-order rule. -/
theorem generate_text_failover
    (e1 e2 : ProviderEntry) (call : String → Nat → Except E String)
    (maxRetries : Nat) (errf : Nat → E) (res : Nat → String)
    (h1 : e1.initialized = true) (h2 : e2.initialized = true)
    (hne : e1.name ≠ e2.name) (hd : e1.name ≠ "default")
    (hfail : ∀ n, call e1.name n = Except.error (errf n))
    (hok : ∀ n, call e2.name n = Except.ok (res n))
    (hmr : 1 ≤ maxRetries) :
    generate_text [e2, e1] call (some e1.name) none maxRetries =
      (Sum.inl (res 0),
       ((List.range maxRetries).map fun k => (e1.name, k)) ++ [(e2.name, 0)]) := by
  have hne' : e2.name ≠ e1.name := Ne.symm hne
  have hchain : providersToTry (resolveProvider (some e1.name) none) [e2, e1] =
      [e1.name, e2.name] := by
    simp [providersToTry, resolveProvider, hd, buildChainAux, hne', h2]
  have hbeq : (e2.name == e1.name) = false := by
    simp [hne']
  have hbeq1 : (e1.name == e1.name) = true := by simp
  have hbeq2 : (e2.name == e2.name) = true := by simp
  have hinit1 : lookupInitialized [e2, e1] e1.name = true := by
    simp [lookupInitialized, List.find?, hbeq, hbeq1, h1]
  have hinit2 : lookupInitialized [e2, e1] e2.name = true := by
    simp [lookupInitialized, List.find?, hbeq2, h2]
  have hloop1 := providerRetryLoop_all_fail (call e1.name) e1.name errf hfail
    maxRetries 0 none
  rw [if_neg (by omega : ¬ maxRetries = 0)] at hloop1
  have hloop2 := providerRetryLoop_first_ok (call e2.name) e2.name (res 0) (hok 0)
    maxRetries hmr (some (errf (0 + maxRetries - 1)))
  unfold generate_text
  rw [hchain]
  simp only [tryProvidersAux, hinit1, hinit2, if_true, hloop1, hloop2,
    List.range_eq_range']

/-- C2 witness: registry `[gemini, openai]`, preferred `openai` always failing,
`gemini` always succeeding, `maxRetries = 3`. -/
theorem generate_text_failover_witness :
    generate_text [⟨"gemini", true⟩, ⟨"openai", true⟩]
        (fun p n => if p = "openai" then Except.error (100 + n) else Except.ok "ok")
        (some "openai") none 3 =
      (Sum.inl "ok", [("openai", 0), ("openai", 1), ("openai", 2), ("gemini", 0)]) := by
  have h := generate_text_failover (E := Nat) ⟨"openai", true⟩ ⟨"gemini", true⟩
    (fun p n => if p = "openai" then Except.error (100 + n) else Except.ok "ok")
    3 (fun n => 100 + n) (fun _ => "ok") rfl rfl (by decide) (by decide)
    (fun n => by simp) (fun n => by simp) (by decide)
  rw [h]
  rfl

/-! ## Lemmas for the reading statistics -/

theorem pyStrip_eq_nil (l : List Char) (h : pyStrip l = []) : ∀ c ∈ l, pyIsSpace c := by
  intro c hc
  unfold pyStrip at h
  rw [List.reverse_eq_nil_iff, List.dropWhile_eq_nil_iff] at h
  rw [← List.takeWhile_append_dropWhile (p := pyIsSpace) (l := l)] at hc
  rcases List.mem_append.mp hc with h3 | h3
  · exact List.mem_takeWhile_imp h3
  · exact h c (List.mem_reverse.mpr h3)

theorem reSplitAux_all_ws (sep : Char → Bool) :
    ∀ (cs : List Char) (inSep : Bool) (acc : List Char),
      (∀ piece ∈ reSplitAux sep cs inSep acc, pyStrip piece = []) →
      (∀ c ∈ cs, sep c = true ∨ pyIsSpace c = true) ∧ (∀ c ∈ acc, pyIsSpace c = true) := by
  intro cs
  induction cs with
  | nil =>
    intro inSep acc h
    refine ⟨by simp, ?_⟩
    intro c hc
    have := h acc.reverse (by simp [reSplitAux])
    exact pyStrip_eq_nil _ this c (List.mem_reverse.mpr hc)
  | cons c cs ih =>
    intro inSep acc h
    by_cases hc : sep c = true
    · cases inSep with
      | true =>
        have h' : ∀ piece ∈ reSplitAux sep cs true acc, pyStrip piece = [] := by
          intro piece hp
          exact h piece (by simpa [reSplitAux, hc] using hp)
        obtain ⟨h1, h2⟩ := ih true acc h'
        refine ⟨?_, h2⟩
        intro d hd
        rcases List.mem_cons.mp hd with rfl | hd
        · exact Or.inl hc
        · exact h1 d hd
      | false =>
        have hacc : pyStrip acc.reverse = [] := by
          apply h
          simp [reSplitAux, hc]
        have h' : ∀ piece ∈ reSplitAux sep cs true [], pyStrip piece = [] := by
          intro piece hp
          exact h piece (by simp [reSplitAux, hc]; exact Or.inr hp)
        obtain ⟨h1, _⟩ := ih true [] h'
        refine ⟨?_, fun d hd => pyStrip_eq_nil _ hacc d (List.mem_reverse.mpr hd)⟩
        intro d hd
        rcases List.mem_cons.mp hd with rfl | hd
        · exact Or.inl hc
        · exact h1 d hd
    · have hsep : sep c = false := by simpa using hc
      have h' : ∀ piece ∈ reSplitAux sep cs false (c :: acc), pyStrip piece = [] := by
        intro piece hp
        exact h piece (by simpa [reSplitAux, hsep] using hp)
      obtain ⟨h1, h2⟩ := ih false (c :: acc) h'
      have hcws : pyIsSpace c = true := h2 c (by simp)
      refine ⟨?_, fun d hd => h2 d (by simp [hd])⟩
      intro d hd
      rcases List.mem_cons.mp hd with rfl | hd
      · exact Or.inr hcws
      · exact h1 d hd

theorem wordRunsAux_eq_nil (cs : List Char) (h : ∀ c ∈ cs, pyIsWordChar c = false) :
    wordRunsAux cs [] = [] := by
  induction cs with
  | nil => rfl
  | cons c cs ih =>
    have hc := h c (by simp)
    simp only [wordRunsAux, hc, Bool.false_eq_true, if_false, List.isEmpty_nil, if_true]
    exact ih fun d hd => h d (by simp [hd])

theorem noWordChar_of_punct_or_ws (c : Char)
    (h : isSentencePunct c = true ∨ pyIsSpace c = true) :
    pyIsWordChar c.toLower = false := by
  have hcs : c = '.' ∨ c = '!' ∨ c = '?' ∨ c = ' ' ∨ c = '\t' ∨ c = '\n' ∨ c = '\r' ∨
      c = '\x0b' ∨ c = '\x0c' := by
    rcases h with h | h
    · simp only [isSentencePunct, Bool.or_eq_true, decide_eq_true_eq] at h
      tauto
    · simp only [pyIsSpace, Bool.or_eq_true, decide_eq_true_eq] at h
      tauto
  rcases hcs with h | h | h | h | h | h | h | h | h <;> subst h <;> decide

/-- C8: for every text containing no sentences (the embedded extraction
`pySentences` — split on `[.!?]+`, strip, drop empties — returns the empty
list; in particular the empty string), `calculate_reading_statistics` returns
the all-zero statistics record without reaching either division: the
`sentence_count == 0` guard returns before the division by `sentence_count`,
and the word count is itself zero for such texts. -/
theorem calculate_reading_statistics_no_sentences (cs : List Char)
    (h : pySentences cs = []) :
    calculate_reading_statistics cs = ⟨0, 0, 0, 0, 0⟩ := by
  have hpieces : ∀ piece ∈ reSplit isSentencePunct cs, pyStrip piece = [] := by
    intro piece hp
    have hmem : pyStrip piece ∈ (reSplit isSentencePunct cs).map pyStrip :=
      List.mem_map_of_mem pyStrip hp
    have := List.filter_eq_nil_iff.mp h (pyStrip piece) hmem
    simpa using this
  have hchars := (reSplitAux_all_ws isSentencePunct cs false [] hpieces).1
  have hwords : wordRuns (cs.map Char.toLower) = [] := by
    apply wordRunsAux_eq_nil
    intro d hd
    obtain ⟨c, hc, rfl⟩ := List.mem_map.mp hd
    exact noWordChar_of_punct_or_ws c (hchars c hc)
  simp [calculate_reading_statistics, h, hwords]

/-- C8 witness: the whitespace-and-punctuation text `" .!? \t"`. -/
theorem calculate_reading_statistics_no_sentences_witness :
    pySentences (" .!? \t".toList) = [] ∧
      calculate_reading_statistics (" .!? \t".toList) = ⟨0, 0, 0, 0, 0⟩ :=
  ⟨by decide, calculate_reading_statistics_no_sentences _ (by decide)⟩

/-! ## Lemmas for the writer agent -/

/-- Total word count, in whitespace tokens, of a list of chunks (as an `Int`,
matching the Python accumulator `total_words`). -/
def chunkWordSum (l : List String) : Int :=
  (l.map fun c => (pyWordCount c : Int)).sum

theorem writeLongAux_stop (generate : String → String) (target : Int)
    (fuel : Nat) (totalWords wordsPerChunk : Int) (lastChunk : String)
    (h : target ≤ totalWords) :
    writeLongAux generate target fuel totalWords wordsPerChunk lastChunk = ([], []) := by
  cases fuel with
  | zero => rfl
  | succ fuel => simp [writeLongAux, h]

theorem writeLongAux_lengths (generate : String → String) (target : Int) :
    ∀ (fuel : Nat) (totalWords wordsPerChunk : Int) (lastChunk : String),
      (writeLongAux generate target fuel totalWords wordsPerChunk lastChunk).1.length ≤ fuel ∧
      (writeLongAux generate target fuel totalWords wordsPerChunk lastChunk).2.length =
        (writeLongAux generate target fuel totalWords wordsPerChunk lastChunk).1.length := by
  intro fuel
  induction fuel with
  | zero => intro tw wpc lc; simp [writeLongAux]
  | succ fuel ih =>
    intro tw wpc lc
    by_cases h : target ≤ tw
    · simp [writeLongAux, h]
    · simp only [writeLongAux, if_neg h, List.length_cons]
      exact ⟨Nat.succ_le_succ (ih _ _ _).1, congrArg Nat.succ (ih _ _ _).2⟩

theorem writeLongAux_prefix_sums (generate : String → String) (target : Int) :
    ∀ (fuel : Nat) (totalWords wordsPerChunk : Int) (lastChunk : String) (j : Nat),
      j < (writeLongAux generate target fuel totalWords wordsPerChunk lastChunk).1.length →
      totalWords + chunkWordSum
        ((writeLongAux generate target fuel totalWords wordsPerChunk lastChunk).1.take j) <
        target := by
  intro fuel
  induction fuel with
  | zero => intro tw wpc lc j hj; simp [writeLongAux] at hj
  | succ fuel ih =>
    intro tw wpc lc j hj
    by_cases h : target ≤ tw
    · rw [writeLongAux_stop generate target _ _ _ _ h] at hj
      simp at hj
    · simp only [writeLongAux, if_neg h] at hj ⊢
      cases j with
      | zero => simpa [chunkWordSum] using lt_of_not_le h
      | succ j =>
        rw [List.length_cons] at hj
        have hj' := Nat.lt_of_succ_lt_succ hj
        have := ih _ _ _ j hj'
        simp only [List.take_succ_cons, chunkWordSum, List.map_cons, List.sum_cons]
        rw [chunkWordSum] at this
        omega

theorem write_long_chapter_bounds (generate : String → String) (initialPrompt : String)
    (target : Int) (maxChunks : Nat) (hm : 1 ≤ maxChunks) :
    (write_long_chapter generate initialPrompt target maxChunks).prompts.length ≤ maxChunks ∧
    (∀ j, j + 1 < (write_long_chapter generate initialPrompt target maxChunks).chunks.length →
      chunkWordSum ((write_long_chapter generate initialPrompt target
        maxChunks).chunks.take (j + 1)) < target) ∧
    (target ≤ (pyWordCount (generate initialPrompt) : Int) →
      (write_long_chapter generate initialPrompt target maxChunks).prompts.length = 1) := by
  refine ⟨?_, ?_, ?_⟩
  · simp only [write_long_chapter, List.length_cons]
    have h1 := (writeLongAux_lengths generate target (maxChunks - 1)
      ((pyWordCount (generate initialPrompt) : Int))
      (min 2500 (Int.fdiv target (maxChunks : Int))) (generate initialPrompt)).1
    have h2 := (writeLongAux_lengths generate target (maxChunks - 1)
      ((pyWordCount (generate initialPrompt) : Int))
      (min 2500 (Int.fdiv target (maxChunks : Int))) (generate initialPrompt)).2
    omega
  · intro j hj
    simp only [write_long_chapter, List.length_cons] at hj ⊢
    have hj' := Nat.lt_of_succ_lt_succ hj
    have := writeLongAux_prefix_sums generate target (maxChunks - 1)
      ((pyWordCount (generate initialPrompt) : Int))
      (min 2500 (Int.fdiv target (maxChunks : Int))) (generate initialPrompt) j hj'
    simp only [List.take_succ_cons, chunkWordSum, List.map_cons, List.sum_cons] at this ⊢
    omega
  · intro h
    simp only [write_long_chapter,
      writeLongAux_stop generate target (maxChunks - 1) _ _ _ h, List.length_cons,
      List.length_nil]

/-- C3: for a chunked long-form generation (target word count above the
single-call threshold 3000, so `write_chapter` delegates to
`_write_long_chapter` with the default `max_chunks = 3`), the number of
provider generation calls never exceeds 3; chunk `j+1` is only ever requested
while the accumulated whitespace-token word count of chunks `1..j+1` is still
below the target; and if the first chunk alone reaches the target, exactly one
call is made. -/
theorem write_chapter_chunked_bounds (generate : String → String) (info : ChapterInfo)
    (previousChapters : List String) (characterProfiles writingStyle : String)
    (h : 3000 < info.word_count.getD 3000) :
    (write_chapter generate info previousChapters characterProfiles writingStyle).2 =
      (write_long_chapter generate
        (chapter_prompt info previousChapters characterProfiles writingStyle)
        (info.word_count.getD 3000) 3).prompts ∧
    (write_long_chapter generate
        (chapter_prompt info previousChapters characterProfiles writingStyle)
        (info.word_count.getD 3000) 3).prompts.length ≤ 3 ∧
    (∀ j, j + 1 < (write_long_chapter generate
        (chapter_prompt info previousChapters characterProfiles writingStyle)
        (info.word_count.getD 3000) 3).chunks.length →
      chunkWordSum ((write_long_chapter generate
        (chapter_prompt info previousChapters characterProfiles writingStyle)
        (info.word_count.getD 3000) 3).chunks.take (j + 1)) <
        info.word_count.getD 3000) ∧
    ((info.word_count.getD 3000 : Int) ≤
        (pyWordCount (generate (chapter_prompt info previousChapters characterProfiles
          writingStyle)) : Int) →
      (write_long_chapter generate
        (chapter_prompt info previousChapters characterProfiles writingStyle)
        (info.word_count.getD 3000) 3).prompts.length = 1) := by
  have hb := write_long_chapter_bounds generate
    (chapter_prompt info previousChapters characterProfiles writingStyle)
    (info.word_count.getD 3000) 3 (by omega)
  refine ⟨?_, hb.1, hb.2.1, hb.2.2⟩
  simp only [write_chapter, if_pos h]

/-- C3 witness: a generator that always answers three words, target 3001. -/
theorem write_chapter_chunked_bounds_witness :
    3000 < (({ word_count := some 3001 } : ChapterInfo).word_count.getD 3000) ∧
    (write_long_chapter (fun _ => "a b c")
        (chapter_prompt { word_count := some 3001 } [] "" "epic")
        (({ word_count := some 3001 } : ChapterInfo).word_count.getD 3000) 3).prompts.length ≤ 3 :=
  ⟨by decide,
   (write_chapter_chunked_bounds (fun _ => "a b c") { word_count := some 3001 } [] "" "epic"
     (by decide)).2.1⟩

/-- C4: for every chapter request whose target word count is at most 3000,
`write_chapter` issues exactly one provider generation call — the single
chapter prompt — and returns that call's result unchanged. -/
theorem write_chapter_single_call (generate : String → String) (info : ChapterInfo)
    (previousChapters : List String) (characterProfiles writingStyle : String)
    (h : info.word_count.getD 3000 ≤ 3000) :
    write_chapter generate info previousChapters characterProfiles writingStyle =
      (generate (chapter_prompt info previousChapters characterProfiles writingStyle),
       [chapter_prompt info previousChapters characterProfiles writingStyle]) := by
  simp only [write_chapter, if_neg (by omega : ¬ (3000 : Int) < info.word_count.getD 3000)]

/-- C4 witness: a 2000-word chapter request. -/
theorem write_chapter_single_call_witness :
    (({ word_count := some 2000 } : ChapterInfo).word_count.getD 3000 ≤ 3000) ∧
    write_chapter (fun _ => "story text") { word_count := some 2000 } [] "profiles" "noir" =
      ((fun _ => "story text" : String → String)
         (chapter_prompt { word_count := some 2000 } [] "profiles" "noir"),
       [chapter_prompt { word_count := some 2000 } [] "profiles" "noir"]) :=
  ⟨by decide,
   write_chapter_single_call (fun _ => "story text") { word_count := some 2000 } []
     "profiles" "noir" (by decide)⟩

/-! ## Lemmas for the stable sort -/

theorem mem_insItem (le : α → α → Bool) (x a : α) :
    ∀ l, a ∈ insItem le x l ↔ a = x ∨ a ∈ l := by
  intro l
  induction l with
  | nil => simp [insItem]
  | cons y ys ih =>
    simp only [insItem]
    split
    · simp only [List.mem_cons]
    · simp only [List.mem_cons, ih]
      tauto

theorem mem_insSort (le : α → α → Bool) (a : α) :
    ∀ l, a ∈ insSort le l ↔ a ∈ l := by
  intro l
  induction l with
  | nil => simp [insSort]
  | cons x xs ih =>
    simp only [insSort, mem_insItem, ih, List.mem_cons]

theorem pairwise_insItem (le : α → α → Bool)
    (htot : ∀ a b, le a b = true ∨ le b a = true)
    (htrans : ∀ a b c, le a b = true → le b c = true → le a c = true) (x : α) :
    ∀ l, l.Pairwise (fun a b => le a b = true) →
      (insItem le x l).Pairwise (fun a b => le a b = true) := by
  intro l
  induction l with
  | nil => intro _; simp [insItem]
  | cons y ys ih =>
    intro h
    rw [List.pairwise_cons] at h
    obtain ⟨hy, hys⟩ := h
    by_cases hxy : le x y = true
    · simp only [insItem]
      rw [if_pos hxy]
      rw [List.pairwise_cons]
      refine ⟨?_, List.pairwise_cons.mpr ⟨hy, hys⟩⟩
      intro b hb
      rcases List.mem_cons.mp hb with rfl | hb
      · exact hxy
      · exact htrans x y b hxy (hy b hb)
    · have hyx : le y x = true := (htot x y).resolve_left hxy
      simp only [insItem]
      rw [if_neg hxy]
      rw [List.pairwise_cons]
      refine ⟨?_, ih hys⟩
      intro b hb
      rcases (mem_insItem le x b ys).mp hb with rfl | hb
      · exact hyx
      · exact hy b hb

theorem pairwise_insSort (le : α → α → Bool)
    (htot : ∀ a b, le a b = true ∨ le b a = true)
    (htrans : ∀ a b c, le a b = true → le b c = true → le a c = true) :
    ∀ l, (insSort le l).Pairwise (fun a b => le a b = true) := by
  intro l
  induction l with
  | nil => simp [insSort]
  | cons x xs ih => exact pairwise_insItem le htot htrans x _ ih

/-! ## Lemmas for the repeated-phrase finder -/

theorem lookupCount_bump (k k' : List Char) :
    ∀ m, lookupCount (bumpCount m k') k = lookupCount m k + (if k = k' then 1 else 0) := by
  intro m
  induction m with
  | nil =>
    by_cases h : k = k'
    · subst h; simp [bumpCount, lookupCount]
    · simp [bumpCount, lookupCount, h, Ne.symm h]
  | cons e m ih =>
    by_cases he : e.1 = k'
    · by_cases hek : e.1 = k
      · have hkk' : k = k' := by rw [← hek, he]
        simp [bumpCount, lookupCount, he, hek, hkk']
      · have hkk' : ¬ k = k' := fun hh => hek (by rw [he, hh])
        simp [bumpCount, lookupCount, he, hek, hkk', Ne.symm hkk']
    · by_cases hek : e.1 = k
      · have hkk' : ¬ k = k' := fun hh => he (by rw [hek, hh])
        simp [bumpCount, lookupCount, he, hek, hkk', Ne.symm hkk']
      · simp [bumpCount, lookupCount, he, hek, ih]

theorem lookupCount_foldl_bump (g : Nat → List Char) (k : List Char) :
    ∀ (l : List Nat) (m : List (List Char × Nat)),
      lookupCount (l.foldl (fun m i => bumpCount m (g i)) m) k =
        lookupCount m k + l.countP (fun i => g i = k) := by
  intro l
  induction l with
  | nil => intro m; simp
  | cons i l ih =>
    intro m
    rw [List.foldl_cons, ih, lookupCount_bump, List.countP_cons]
    by_cases h : g i = k
    · rw [if_pos h.symm, if_pos (by simp [h])]
      omega
    · rw [if_neg (fun hh => h hh.symm), if_neg (by simp [h])]
      omega

theorem mem_of_lookupCount (k : List Char) (n : Nat) (hn : n ≠ 0) :
    ∀ m, lookupCount m k = n → (k, n) ∈ m := by
  intro m
  induction m with
  | nil => intro h; simp [lookupCount] at h; omega
  | cons e m ih =>
    intro h
    simp only [lookupCount] at h
    by_cases he : e.1 = k
    · rw [if_pos he] at h
      have : e = (k, n) := by
        cases e with
        | mk a b =>
          simp only at he h
          rw [he, h]

      rw [this]
      exact List.mem_cons_self _ _
    · rw [if_neg he] at h
      exact List.mem_cons_of_mem e (ih h)

theorem append_space_inj :
    ∀ (x y u v : List Char), (∀ c ∈ x, c ≠ ' ') → (∀ c ∈ y, c ≠ ' ') →
      x ++ ' ' :: u = y ++ ' ' :: v → x = y ∧ u = v := by
  intro x
  induction x with
  | nil =>
    intro y u v _ hy h
    cases y with
    | nil => simpa using h
    | cons d y' =>
      simp only [List.nil_append, List.cons_append, List.cons.injEq] at h
      exact absurd h.1.symm (hy d (by simp))
  | cons d x' ih =>
    intro y u v hx hy h
    cases y with
    | nil =>
      simp only [List.cons_append, List.nil_append, List.cons.injEq] at h
      exact absurd h.1 (hx d (by simp))
    | cons d' y' =>
      simp only [List.cons_append, List.cons.injEq] at h
      obtain ⟨rfl, h2⟩ := h
      obtain ⟨h3, h4⟩ := ih y' u v (fun c hc => hx c (by simp [hc]))
        (fun c hc => hy c (by simp [hc])) h2
      exact ⟨by rw [h3], h4⟩

theorem reSplitAux_pieces_no_sep (sep : Char → Bool) :
    ∀ (cs : List Char) (inSep : Bool) (acc : List Char),
      (∀ c ∈ acc, sep c = false) →
      ∀ piece ∈ reSplitAux sep cs inSep acc, ∀ c ∈ piece, sep c = false := by
  intro cs
  induction cs with
  | nil =>
    intro inSep acc hacc piece hp c hc
    simp only [reSplitAux, List.mem_singleton] at hp
    subst hp
    exact hacc c (List.mem_reverse.mp hc)
  | cons d cs ih =>
    intro inSep acc hacc piece hp c hc
    by_cases hd : sep d = true
    · cases inSep with
      | true =>
        simp only [reSplitAux, hd, if_true] at hp
        exact ih true acc hacc piece hp c hc
      | false =>
        simp only [reSplitAux, hd, if_true] at hp
        rcases List.mem_cons.mp hp with rfl | hp
        · exact hacc c (List.mem_reverse.mp hc)
        · exact ih true [] (by simp) piece hp c hc
    · have hd' : sep d = false := by simpa using hd
      simp only [reSplitAux, hd', Bool.false_eq_true, if_false] at hp
      refine ih false (d :: acc) ?_ piece hp c hc
      intro x hx
      rcases List.mem_cons.mp hx with rfl | hx
      · exact hd'
      · exact hacc x hx

theorem pySplitWsChars_no_space (s : List Char) (t : List Char)
    (ht : t ∈ pySplitWsChars s) : ∀ c ∈ t, c ≠ ' ' := by
  intro c hc
  have ht' : t ∈ reSplit pyIsSpace s := (List.mem_filter.mp ht).1
  have := reSplitAux_pieces_no_sep pyIsSpace s false [] (by simp) t ht' c hc
  intro hcs
  rw [hcs] at this
  simp [pyIsSpace] at this

theorem take_three (l : List (List Char)) (h : 3 ≤ l.length) :
    ∃ a b c, l.take 3 = [a, b, c] ∧ a ∈ l ∧ b ∈ l ∧ c ∈ l := by
  rcases l with _ | ⟨a, _ | ⟨b, _ | ⟨c, rest⟩⟩⟩
  · simp at h
  · simp at h
  · simp at h
  · exact ⟨a, b, c, rfl, by simp, by simp, by simp⟩

/-- C9: if the trigram "the dark forest" occurs exactly five times as
consecutive tokens of the lower-cased whitespace tokenisation, then
`find_repeated_phrases` with minimum length 3 and minimum occurrences 3
contains the pair ("the dark forest", 5), and its result is sorted by
non-increasing occurrence count. -/
theorem find_repeated_phrases_trigram (cs : List Char)
    (h : ((List.range ((pySplitWsChars (cs.map Char.toLower)).length + 1 - 3)).countP
        (fun i => ((pySplitWsChars (cs.map Char.toLower)).drop i).take 3 =
          ["the".toList, "dark".toList, "forest".toList])) = 5) :
    ("the dark forest".toList, 5) ∈ find_repeated_phrases cs 3 3 ∧
    List.Pairwise (fun (a b : List Char × Nat) => b.2 ≤ a.2)
      (find_repeated_phrases cs 3 3) := by
  set ws := pySplitWsChars (cs.map Char.toLower) with hws
  have hjoin3 : "the dark forest".toList =
      "the".toList ++ ' ' :: ("dark".toList ++ ' ' :: "forest".toList) := by decide
  have hcount : (List.range (ws.length + 1 - 3)).countP
      (fun i => joinSpace ((ws.drop i).take 3) = "the dark forest".toList) = 5 := by
    rw [← h]
    apply List.countP_congr
    intro i hi
    have hi' : i < ws.length + 1 - 3 := List.mem_range.mp hi
    have hlen : 3 ≤ (ws.drop i).length := by
      rw [List.length_drop]
      omega
    obtain ⟨a, b, c, htake, ha, hb, hc⟩ := take_three (ws.drop i) hlen
    have hamem : a ∈ ws := List.mem_of_mem_drop ha
    have hbmem : b ∈ ws := List.mem_of_mem_drop hb
    have hcmem : c ∈ ws := List.mem_of_mem_drop hc
    rw [htake]
    simp only [decide_eq_true_eq]
    constructor
    · intro hj
      have hj' : a ++ ' ' :: (b ++ ' ' :: c) = "the".toList ++
          ' ' :: ("dark".toList ++ ' ' :: "forest".toList) := by
        rw [← hjoin3, ← hj]
        rfl
      obtain ⟨h1, h2⟩ := append_space_inj a "the".toList _ _
        (pySplitWsChars_no_space _ a hamem) (by decide) hj'
      obtain ⟨h3, h4⟩ := append_space_inj b "dark".toList _ _
        (pySplitWsChars_no_space _ b hbmem) (by decide) h2
      rw [h1, h3, h4]
    · intro hj
      rw [hj]
      decide
  have hlookup : lookupCount (phraseDict ws 3) ("the dark forest".toList) = 5 := by
    rw [phraseDict, lookupCount_foldl_bump, hcount]
    rfl
  have hmem : ("the dark forest".toList, 5) ∈ phraseDict ws 3 :=
    mem_of_lookupCount _ 5 (by omega) _ hlookup
  have hmemf : ("the dark forest".toList, 5) ∈
      (phraseDict ws 3).filter (fun e => 3 ≤ e.2) := by
    rw [List.mem_filter]
    exact ⟨hmem, by decide⟩
  constructor
  · rw [find_repeated_phrases, mem_insSort]
    exact hmemf
  · have hp := pairwise_insSort (fun (a b : List Char × Nat) => decide (b.2 ≤ a.2))
      (fun a b => by
        rcases Nat.le_total b.2 a.2 with hab | hab
        · exact Or.inl (by simpa using hab)
        · exact Or.inr (by simpa using hab))
      (fun a b c hab hbc => by
        simp only [decide_eq_true_eq] at hab hbc ⊢
        omega)
      ((phraseDict ws 3).filter (fun e => 3 ≤ e.2))
    rw [find_repeated_phrases]
    exact hp.imp fun hab => by simpa using hab

/-- C9 witness: the trigram repeated five times. -/
theorem find_repeated_phrases_trigram_witness :
    (((List.range ((pySplitWsChars
        (("the dark forest the dark forest the dark forest the dark forest the dark forest").toList.map
          Char.toLower)).length + 1 - 3)).countP
        (fun i => ((pySplitWsChars
          (("the dark forest the dark forest the dark forest the dark forest the dark forest").toList.map
            Char.toLower)).drop i).take 3 =
          ["the".toList, "dark".toList, "forest".toList])) = 5) ∧
    ("the dark forest".toList, 5) ∈ find_repeated_phrases
      ("the dark forest the dark forest the dark forest the dark forest the dark forest").toList
      3 3 :=
  ⟨by decide,
   (find_repeated_phrases_trigram _ (by decide)).1⟩

/-! ## Lemmas for chunk_text -/

theorem pyRfind_lt (cs : List Char) (c : Char) (start : Nat) :
    ∀ stop, pyRfind cs c start stop < (stop : Int) := by
  intro stop
  induction stop with
  | zero => simp [pyRfind]
  | succ j ih =>
    simp only [pyRfind]
    split
    · push_cast
      omega
    · have := ih
      push_cast
      push_cast at this
      omega

theorem chunkEnd_spec (cs : List Char) (m start : Nat) (hm : 1 ≤ m)
    (hs : start < cs.length) :
    start < chunkEnd cs m start ∧ chunkEnd cs m start ≤ cs.length ∧
      (chunkEnd cs m start = min (start + m) cs.length ∨
        start + m / 2 + 2 ≤ chunkEnd cs m start) := by
  have hmin1 : min (start + m) cs.length ≤ cs.length := Nat.min_le_right _ _
  have hmin2 : start < min (start + m) cs.length := by
    rcases Nat.le_total (start + m) cs.length with h | h
    · rw [Nat.min_eq_left h]; omega
    · rw [Nat.min_eq_right h]; omega
  have hr1 := pyRfind_lt cs '.' start (min (start + m) cs.length)
  have hr2 := pyRfind_lt cs '?' start (min (start + m) cs.length)
  have hr3 := pyRfind_lt cs '!' start (min (start + m) cs.length)
  have hmax : max (pyRfind cs '.' start (min (start + m) cs.length))
      (max (pyRfind cs '?' start (min (start + m) cs.length))
        (pyRfind cs '!' start (min (start + m) cs.length))) <
      ((min (start + m) cs.length : Nat) : Int) :=
    max_lt hr1 (max_lt hr2 hr3)
  simp only [chunkEnd]
  split_ifs with h1 h2
  · set se := max (pyRfind cs '.' start (min (start + m) cs.length))
      (max (pyRfind cs '?' start (min (start + m) cs.length))
        (pyRfind cs '!' start (min (start + m) cs.length))) with hse
    refine ⟨by omega, by omega, Or.inr (by omega)⟩
  · exact ⟨hmin2, hmin1, Or.inl rfl⟩
  · exact ⟨hmin2, hmin1, Or.inl rfl⟩

theorem chunkStep_progress (cs : List Char) (m ov start : Nat) (hm : 1 ≤ m)
    (hs : start < cs.length) :
    start < (chunkStep cs m ov start).2 := by
  obtain ⟨h1, _, _⟩ := chunkEnd_spec cs m start hm hs
  simp only [chunkStep]
  split_ifs with hb
  · omega
  · omega

theorem chunkStep_spec (cs : List Char) (m ov start : Nat) (hm : 1 ≤ m)
    (hov : 2 * ov ≤ m) (hs : start < cs.length) :
    ((chunkStep cs m ov start).2 < cs.length →
      (chunkStep cs m ov start).2 = chunkEnd cs m start - ov ∧
      start + ov < chunkEnd cs m start) ∧
    (cs.length ≤ (chunkStep cs m ov start).2 → chunkEnd cs m start = cs.length) := by
  obtain ⟨h1, h2, h3⟩ := chunkEnd_spec cs m start hm hs
  have hov2 : ov ≤ m / 2 := by omega
  simp only [chunkStep]
  split_ifs with hb
  · exact ⟨fun _ => ⟨rfl, by omega⟩, fun hge => by omega⟩
  · have he : chunkEnd cs m start = cs.length := by
      rcases h3 with h3 | h3
      · rcases Nat.le_total (start + m) cs.length with hc | hc
        · rw [Nat.min_eq_left hc] at h3
          omega
        · rw [Nat.min_eq_right hc] at h3
          omega
      · omega
    exact ⟨fun hlt => absurd hlt (by omega), fun _ => he⟩

theorem chunkLoop_done (cs : List Char) (m ov : Nat) :
    ∀ fuel start, cs.length ≤ start → chunkLoop cs m ov fuel start = some [] := by
  intro fuel start h
  cases fuel <;> simp [chunkLoop, Nat.not_lt.mpr h]

theorem chunkLoop_isSome (cs : List Char) (m ov : Nat) (hm : 1 ≤ m) :
    ∀ fuel start, cs.length ≤ start + fuel → (chunkLoop cs m ov fuel start).isSome := by
  intro fuel
  induction fuel with
  | zero =>
    intro start h
    rw [chunkLoop_done cs m ov 0 start (by omega)]
    rfl
  | succ fuel ih =>
    intro start h
    by_cases hs : start < cs.length
    · have hp := chunkStep_progress cs m ov start hm hs
      have hrec := ih (chunkStep cs m ov start).2 (by omega)
      simp only [chunkLoop, if_pos hs]
      cases hopt : chunkLoop cs m ov fuel (chunkStep cs m ov start).2 with
      | none => rw [hopt] at hrec; simp at hrec
      | some l => rfl
    · rw [chunkLoop_done cs m ov _ start (by omega)]
      rfl

theorem pySlice_to_end (cs : List Char) (start : Nat) :
    pySlice cs start cs.length = cs.drop start := by
  apply List.take_of_length_le
  rw [List.length_drop]

theorem pySlice_append_drop (cs : List Char) (a b : Nat) (hab : a ≤ b) :
    pySlice cs a b ++ cs.drop b = cs.drop a := by
  have h : cs.drop b = (cs.drop a).drop (b - a) := by
    rw [List.drop_drop]
    congr 1
    omega
  rw [pySlice, h, List.take_append_drop]

theorem pySlice_drop (cs : List Char) (a b ov : Nat) :
    (pySlice cs a b).drop ov = pySlice cs (a + ov) b := by
  simp only [pySlice]
  rw [List.drop_take, List.drop_drop]
  congr 1
  omega

theorem pySlice_length (cs : List Char) (a b : Nat) :
    (pySlice cs a b).length = min (b - a) (cs.length - a) := by
  simp [pySlice]

theorem chunkLoop_reassemble (cs : List Char) (m ov : Nat) (hm : 1 ≤ m)
    (hov : 2 * ov ≤ m) :
    ∀ fuel start, start < cs.length → cs.length ≤ start + fuel →
      ∃ rest, chunkLoop cs m ov fuel start =
          some (pySlice cs start (chunkEnd cs m start) :: rest) ∧
        pySlice cs start (chunkEnd cs m start) ++
          (rest.map fun d => d.drop ov).flatten = cs.drop start := by
  intro fuel
  induction fuel with
  | zero =>
    intro start h1 h2
    omega
  | succ fuel ih =>
    intro start hs hf
    obtain ⟨he1, he2, _⟩ := chunkEnd_spec cs m start hm hs
    obtain ⟨hnext, hdone⟩ := chunkStep_spec cs m ov start hm hov hs
    have hprog := chunkStep_progress cs m ov start hm hs
    by_cases h2 : (chunkStep cs m ov start).2 < cs.length
    · obtain ⟨hs2eq, hlt⟩ := hnext h2
      obtain ⟨rest1, hl1, hr1⟩ := ih (chunkStep cs m ov start).2 h2 (by omega)
      refine ⟨pySlice cs ((chunkStep cs m ov start).2)
        (chunkEnd cs m ((chunkStep cs m ov start).2)) :: rest1, ?_, ?_⟩
      · simp only [chunkLoop, if_pos hs, hl1, Option.map_some']
        rfl
      · have heq : (chunkStep cs m ov start).2 + ov = chunkEnd cs m start := by omega
        obtain ⟨hg1, hg2, hg3⟩ := chunkEnd_spec cs m ((chunkStep cs m ov start).2) hm h2
        have he2ge : chunkEnd cs m start ≤
            chunkEnd cs m ((chunkStep cs m ov start).2) := by
          have hov2 : ov ≤ m / 2 := by omega
          rcases hg3 with hg3 | hg3
          · rw [hg3]
            exact le_min (by omega) (by omega)
          · omega
        have hc1len : (pySlice cs ((chunkStep cs m ov start).2)
            (chunkEnd cs m ((chunkStep cs m ov start).2))).length =
            chunkEnd cs m ((chunkStep cs m ov start).2) -
              (chunkStep cs m ov start).2 := by
          rw [pySlice_length]
          omega
        have hflat : (rest1.map fun d => d.drop ov).flatten =
            cs.drop (chunkEnd cs m ((chunkStep cs m ov start).2)) := by
          have hdl := congrArg
            (List.drop (pySlice cs ((chunkStep cs m ov start).2)
              (chunkEnd cs m ((chunkStep cs m ov start).2))).length) hr1
          rw [List.drop_left] at hdl
          rw [hdl, hc1len, List.drop_drop]
          congr 1
          omega
        simp only [List.map_cons, List.flatten_cons]
        rw [pySlice_drop, heq, hflat,
          pySlice_append_drop cs (chunkEnd cs m start)
            (chunkEnd cs m ((chunkStep cs m ov start).2)) he2ge,
          pySlice_append_drop cs start (chunkEnd cs m start) (by omega)]
    · have hend : chunkEnd cs m start = cs.length := hdone (by omega)
      refine ⟨[], ?_, ?_⟩
      · simp only [chunkLoop, if_pos hs]
        rw [chunkLoop_done cs m ov fuel ((chunkStep cs m ov start).2) (by omega)]
        rfl
      · simp only [List.map_nil, List.flatten_nil, List.append_nil]
        rw [hend, pySlice_to_end]

/-- C5 counterexample: for `text = "abcde.fghij"` (length 11, above
`maxSize = 6`), `chunk_text` with `overlap = 5` produces chunks whose
concatenation after discarding `overlap` characters at each boundary is
`"abcde."`, not the original text: the sentence-boundary adjustment makes the
second step advance by `end` instead of `end - overlap`, so the third chunk
duplicates nothing and dropping `overlap` characters from it loses text. -/
theorem chunk_text_overlap_not_lossless :
    chunk_text ("abcde.fghij".toList) 6 5 =
      some ["abcde.".toList, "bcde.".toList, "fghij".toList] ∧
    reassemble 5 ["abcde.".toList, "bcde.".toList, "fghij".toList] ≠
      "abcde.fghij".toList ∧
    6 < ("abcde.fghij".toList).length := by
  refine ⟨by decide, by decide, by decide⟩

/-- C5 (amended): for every text of length at most `maxSize`, `chunk_text`
returns exactly the one-element list containing the unmodified input; for
longer texts, provided `2 * overlap ≤ maxSize` (the defaults 2000/200 and the
`analyze_pacing` call 1000/0 satisfy this), concatenating the returned chunks
while discarding the first `overlap` characters of every chunk after the
first reconstructs the original text exactly. -/
theorem chunk_text_roundtrip (cs : List Char) (m ov : Nat) (hm : 1 ≤ m)
    (hov : 2 * ov ≤ m) :
    (cs.length ≤ m → chunk_text cs m ov = some [cs]) ∧
    (m < cs.length → ∃ chunks, chunk_text cs m ov = some chunks ∧
      reassemble ov chunks = cs) := by
  constructor
  · intro h
    simp [chunk_text, h]
  · intro h
    obtain ⟨rest, hl, hr⟩ := chunkLoop_reassemble cs m ov hm hov cs.length 0
      (by omega) (by omega)
    refine ⟨pySlice cs 0 (chunkEnd cs m 0) :: rest, ?_, ?_⟩
    · rw [chunk_text, if_neg (by omega)]
      exact hl
    · simp only [reassemble]
      rw [hr]
      rfl

/-- C5 roundtrip witness: defaults-shaped parameters on a concrete text. -/
theorem chunk_text_roundtrip_witness :
    (1 ≤ 4 ∧ 2 * 2 ≤ 4) ∧
    (("ab".toList).length ≤ 4 → chunk_text ("ab".toList) 4 2 = some ["ab".toList]) ∧
    (4 < ("one. two. three. four.".toList).length →
      ∃ chunks, chunk_text ("one. two. three. four.".toList) 4 2 = some chunks ∧
        reassemble 2 chunks = "one. two. three. four.".toList) :=
  ⟨⟨by decide, by decide⟩,
   (chunk_text_roundtrip ("ab".toList) 4 2 (by decide) (by decide)).1,
   (chunk_text_roundtrip ("one. two. three. four.".toList) 4 2 (by decide) (by decide)).2⟩

/-- C10: for every text and every overlap, the `chunk_text` loop terminates
whenever `max_chunk_size ≥ 1` — fuel `cs.length` suffices because `start`
strictly increases each iteration — while for `max_chunk_size = 0` the loop
never terminates on the nonempty text `"a"`: no amount of fuel produces a
result, because the loop re-enters the same state (`start = 0`) forever. -/
theorem chunk_text_termination :
    (∀ (cs : List Char) (m ov : Nat), 1 ≤ m → (chunk_text cs m ov).isSome) ∧
    (∀ (fuel ov : Nat), chunkLoop ("a".toList) 0 ov fuel 0 = none) := by
  constructor
  · intro cs m ov hm
    rw [chunk_text]
    split_ifs with h
    · rfl
    · exact chunkLoop_isSome cs m ov hm cs.length 0 (by omega)
  · intro fuel
    induction fuel with
    | zero => intro ov; rfl
    | succ fuel ih =>
      intro ov
      have hstep : (chunkStep ("a".toList) 0 ov 0).2 = 0 := by
        simp [chunkStep, chunkEnd, pyRfind]
      simp only [chunkLoop, hstep, ih]
      rfl

/-- C10 witness. -/
theorem chunk_text_termination_witness :
    (chunk_text ("abc".toList) 1 5).isSome ∧
      chunkLoop ("a".toList) 0 7 3 0 = none :=
  ⟨chunk_text_termination.1 ("abc".toList) 1 5 (by decide),
   chunk_text_termination.2 3 7⟩

/-! ## Theorems for the outline parser -/

/-- C6 (code bug): on the input `"Chapter: T\nSummary: s"` — an unnumbered
chapter heading, matched only by the alternative pattern and renumbered to
chapter 1 — `parse_outline` finds no block for the synthetic literal
`Chapter 1:` and falls into line 44,
`outline.split("Chapter 2:")[0].split("Chapter 1:")[1]`, whose `[1]` raises
`IndexError` because `"Chapter 1:"` does not occur; the function raises
instead of degrading to the lenient parser. -/
theorem parse_outline_raises_on_unnumbered_chapter :
    parse_outline ("Chapter: T\nSummary: s".toList) = Except.error () := by
  rfl

/-- C7 counterexample: `parse_outline` of
`"Chapter 1:\nSummary: Hi\nEstimated word count: 0\nChapter 2:\nSummary: Yo"`
returns a first chapter whose word-count target is the explicit 0 (not a
positive default) and a second chapter whose title is the empty string (the
strict pattern's lazy title group matches empty just before `\nSummary`),
refuting both the non-empty-title and the strictly-positive-word-count parts
of the claim. -/
theorem parse_outline_title_and_count_counterexample :
    parse_outline
        ("Chapter 1:\nSummary: Hi\nEstimated word count: 0\nChapter 2:\nSummary: Yo".toList) =
      Except.ok [⟨1, "Summary: Hi".toList, "Hi".toList, 0⟩,
        ⟨2, [], "Yo".toList, 3000⟩] ∧
    ¬ (∀ ch ∈ [(⟨1, "Summary: Hi".toList, "Hi".toList, 0⟩ : PyChapter),
        ⟨2, [], "Yo".toList, 3000⟩], ch.title ≠ [] ∧ 0 < ch.word_count) := by
  constructor
  · rfl
  · decide

/-- C7 (amended): whenever `parse_outline` returns instead of raising, the
returned sequence is sorted in non-decreasing order of chapter number (the
final `chapters.sort(key=lambda x: x["chapter_num"])`).  The original claim's
other two invariants fail on the code: a strict-path title can be empty, and
an explicit `Estimated word count: 0` yields a zero target (the 3000 default
applies only when no count is found). -/
theorem parse_outline_sorted (cs : List Char) (l : List PyChapter)
    (h : parse_outline cs = Except.ok l) :
    List.Pairwise (fun a b => a.chapter_num ≤ b.chapter_num) l := by
  rw [parse_outline] at h
  cases hp : processAll cs (chapterMatchesOf cs) with
  | error e =>
    rw [hp] at h
    simp at h
  | ok chapters =>
    rw [hp] at h
    simp only [Except.ok.injEq] at h
    subst h
    have hp2 := pairwise_insSort
      (fun (a b : PyChapter) => decide (a.chapter_num ≤ b.chapter_num))
      (fun a b => by
        rcases Nat.le_total a.chapter_num b.chapter_num with hab | hab
        · exact Or.inl (by simpa using hab)
        · exact Or.inr (by simpa using hab))
      (fun a b c hab hbc => by
        simp only [decide_eq_true_eq] at hab hbc ⊢
        omega)
      (if chapters.isEmpty then lenient_parse_outline cs else chapters)
    exact hp2.imp fun hab => by simpa using hab

/-- C7 amended-claim witness: an outline listing chapter 2 before chapter 1. -/
theorem parse_outline_sorted_witness :
    List.Pairwise (fun (a b : PyChapter) => a.chapter_num ≤ b.chapter_num)
      [⟨1, "A".toList, "s1".toList, 3000⟩,
       ⟨2, "B".toList, "s2".toList, 3000⟩] :=
  parse_outline_sorted
    ("Chapter 2: B\nSummary: s2\nEstimated word count: 3000\nChapter 1: A\nSummary: s1".toList)
    _ (by rfl)

end AiAuthor
